import Mathlib

/-!
# Verification of the trading-go response-normalization layer

Shallow embedding of the BingX broker client (`bingx` package) and the
`broker` domain model of the `trading-go` repository, together with proofs
about the numeric-ambiguity decoder, the domain normalizer, the request
signer and the error taxonomy.

Numeric wire values (Go `float64`) are modelled as rationals: every claim
under scrutiny concerns shape dispatch, zero tests and pass-through of
parsed values, none concerns binary rounding.
-/

deriving instance DecidableEq for Except

namespace TradingGo

/-! ## Decimal parsing (model of `strconv.ParseFloat`)

`strconv.ParseFloat` is modelled on plain decimal numerals (optional sign,
digits, at most one decimal point), the forms the exchange transmits.
Go-specific extensions (exponents, `Inf`/`NaN`, hexadecimal floats) are not
modelled; no claim depends on them.  The empty string is not a valid
numeral, exactly as in Go. -/

def digitsToNat (cs : List Char) : Nat :=
  cs.foldl (fun a c => a * 10 + (c.toNat - 48)) 0

/-- Split a character list at the (unique) decimal point; `none` when the
list contains more than one point. -/
def splitDot : List Char → Option (List Char × List Char)
  | [] => some ([], [])
  | '.' :: t => if t.contains '.' then none else some ([], t)
  | c :: t =>
    match splitDot t with
    | some (a, b) => some (c :: a, b)
    | none => none

/-- Model of `strconv.ParseFloat` restricted to decimal numerals.
`none` models a returned error. -/
def parseFloat (s : String) : Option ℚ :=
  let (neg, rest) :=
    match s.data with
    | '-' :: t => (true, t)
    | '+' :: t => (false, t)
    | t => (false, t)
  match splitDot rest with
  | none => none
  | some (ip, fp) =>
    if ip.all Char.isDigit ∧ fp.all Char.isDigit ∧ (ip ≠ [] ∨ fp ≠ []) then
      let den : Nat := 10 ^ fp.length
      let mag : Nat := digitsToNat ip * den + digitsToNat fp
      some (mkRat (if neg then -(mag : Int) else (mag : Int)) den)
    else
      none

/-! ## JSON wire values and Go's `encoding/json` unmarshal behaviour -/

/-- Shape of a raw JSON value held in a `json.RawMessage` field.  Object and
array contents are irrelevant to every decoder under study, so they are
collapsed to bare constructors. -/
inductive JsonValue where
  | str (s : String)
  | num (q : ℚ)
  | null
  | bool (b : Bool)
  | obj
  | arr
deriving DecidableEq, Repr

/-- `json.Unmarshal(v, &s)` for `s : string`: succeeds on a JSON string, and
on JSON `null` (Go's decoder treats `null` as a no-op, leaving the zero
value `""` in place and returning no error); fails on every other shape. -/
def unmarshalString : JsonValue → Option String
  | .str s => some s
  | .null => some ""
  | _ => none

/-- `json.Unmarshal(v, &f)` for `f : float64`: succeeds on a JSON number,
and on JSON `null` (no-op, leaving `0.0`); fails on every other shape. -/
def unmarshalFloat : JsonValue → Option ℚ
  | .num q => some q
  | .null => some 0
  | _ => none

/-! ## `bingx/types.go`: PositionData and the ambiguous-numeric decoders -/

/-- `bingx.PositionData` (wire shape of one position).  All-`string` fields
keep their wire text; `leverage` and `liquidationPrice` are
`json.RawMessage` and may be string- or number-shaped. -/
structure PositionData where
  symbol : String := ""
  positionSide : String := ""
  positionAmt : String := ""
  availableAmt : String := ""
  unrealizedProfit : String := ""
  realisedProfit : String := ""
  initialMargin : String := ""
  maintenanceMargin : String := ""
  positionValue : String := ""
  leverage : JsonValue := .null
  isolatedMargin : String := ""
  avgPrice : String := ""
  maxNotionalValue : String := ""
  bidNotional : String := ""
  askNotional : String := ""
  liquidationPrice : JsonValue := .null
  markPrice : String := ""
deriving DecidableEq, Repr

/-- `PositionData.GetLeverageFloat`: first try to unmarshal the raw value as
a string and `strconv.ParseFloat` it; otherwise try as a number; otherwise
fail. -/
def PositionData.GetLeverageFloat (p : PositionData) : Except String ℚ :=
  match unmarshalString p.leverage with
  | some leverageStr =>
    match parseFloat leverageStr with
    | some q => .ok q
    | none => .error "strconv.ParseFloat: invalid syntax"
  | none =>
    match unmarshalFloat p.leverage with
    | some q => .ok q
    | none => .error "unable to parse leverage"

/-- `PositionData.GetLiquidationPriceFloat`: like `GetLeverageFloat` but
with an explicit empty-string case returning `0` ("no liquidation"). -/
def PositionData.GetLiquidationPriceFloat (p : PositionData) : Except String ℚ :=
  match unmarshalString p.liquidationPrice with
  | some priceStr =>
    if priceStr = "" then .ok 0
    else
      match parseFloat priceStr with
      | some q => .ok q
      | none => .error "strconv.ParseFloat: invalid syntax"
  | none =>
    match unmarshalFloat p.liquidationPrice with
    | some q => .ok q
    | none => .error "unable to parse liquidation price"

/-! ## `broker` package: domain model

`broker.Side`, `broker.OrderStatus`, `broker.OrderType`, `broker.TimeInForce`
are Go string types; they are kept as `String` so that arbitrary raw wire
text can be cast into them exactly as the Go code does. -/

abbrev Side := String
abbrev OrderStatus := String
abbrev OrderType := String
abbrev TimeInForce := String

def SideLong : Side := "LONG"
def SideShort : Side := "SHORT"

/-- `broker` error values: `*BrokerError{Broker, Code, Message}` from
`NewBrokerError` (the wrapped `err` cause carries no structure relevant
here), or one of the sentinel `errors.New` values, of which only
`ErrPositionNotFound` is reachable from the embedded paths. -/
inductive BrokerErr where
  | brokerError (broker code message : String)
  | positionNotFound
deriving DecidableEq, Repr

/-- `broker.Balance` (the `Timestamp: time.Now()` field is wall-clock,
not a function of the response, and is omitted). -/
structure Balance where
  asset : String
  total : ℚ
  available : ℚ
  inUse : ℚ
  unrealizedPnL : ℚ
  realizedPnL : ℚ
deriving DecidableEq, Repr

/-- `broker.Position` (wall-clock `Timestamp` omitted, as above). -/
structure Position where
  symbol : String
  side : Side
  size : ℚ
  entryPrice : ℚ
  markPrice : ℚ
  liquidationPrice : ℚ
  leverage : Int
  unrealizedPnL : ℚ
  realizedPnL : ℚ
  margin : ℚ
  maintenanceMargin : ℚ
deriving DecidableEq, Repr

/-- `broker.Order`.  `createdAt`/`updatedAt` model `time.Unix(t/1000, 0)`
as the Unix-seconds integer `t / 1000` (Go integer division). -/
structure Order where
  id : String
  clientOrderID : String
  symbol : String
  side : Side
  type : OrderType
  status : OrderStatus
  size : ℚ
  price : ℚ
  stopPrice : ℚ
  filledSize : ℚ
  averagePrice : ℚ
  reduceOnly : Bool
  timeInForce : TimeInForce
  createdAt : Int
  updatedAt : Int
deriving DecidableEq, Repr

/-- `broker.PositionFilter`. -/
structure PositionFilter where
  symbol : String
  side : Option Side
deriving DecidableEq, Repr

/-- `broker.OrderFilter`.  Note the source's field types: `Side` and
`Status` are both `*OrderStatus`. -/
structure OrderFilter where
  symbol : String
  side : Option OrderStatus
  status : Option OrderStatus
deriving DecidableEq, Repr

/-! ## `bingx` wire response envelopes -/

/-- `bingx.BalanceData`. -/
structure BalanceData where
  userId : String := ""
  asset : String := ""
  balance : String := ""
  equity : String := ""
  unrealizedProfit : String := ""
  realisedProfit : String := ""
  availableMargin : String := ""
  usedMargin : String := ""
  freezedMargin : String := ""
  shortUid : String := ""
deriving DecidableEq, Repr

/-- `bingx.BalanceResponse`. -/
structure BalanceResponse where
  code : Int
  data : List BalanceData
  msg : String
deriving DecidableEq, Repr

/-- `bingx.PositionsResponse`. -/
structure PositionsResponse where
  code : Int
  data : List PositionData
  msg : String
deriving DecidableEq, Repr

/-- `bingx.OpenOrderData`. -/
structure OpenOrderData where
  orderId : Int := 0
  symbol : String := ""
  side : String := ""
  positionSide : String := ""
  type : String := ""
  quantity : String := ""
  price : String := ""
  stopPrice : String := ""
  executedQty : String := ""
  avgPrice : String := ""
  status : String := ""
  timeInForce : String := ""
  clientOrderID : String := ""
  workingType : String := ""
  time : Int := 0
  updateTime : Int := 0
deriving DecidableEq, Repr

/-- `bingx.OpenOrdersResponse` (`data.orders` flattened to `orders`). -/
structure OpenOrdersResponse where
  code : Int
  orders : List OpenOrderData
  msg : String
deriving DecidableEq, Repr

/-- `fmt.Sprintf("API_%d", code)`-style error from a non-success envelope
code, as built at each call site. -/
def apiError (code : Int) (msg : String) : BrokerErr :=
  .brokerError "bingx" ("API_" ++ toString code) msg

/-- `APISuccessCode` from `bingx` constants. -/
def APISuccessCode : Int := 0

/-! ## `bingx` domain normalizer

Each operation is embedded from the point where the decoded envelope is in
hand (`makeRequest` transport and `json.Unmarshal` byte decoding are the
upstream collaborators; an unmarshal failure is modelled by feeding the
operation `none` where relevant). -/

/-- Go `int(f)` conversion: truncation toward zero. -/
def truncToInt (q : ℚ) : Int := q.num.tdiv q.den

/-- The `value, _ := strconv.ParseFloat(s, 64)` idiom: on a parse error the
error is discarded and the zero value is kept. -/
def parseFloatOrZero (s : String) : ℚ := (parseFloat s).getD 0

/-- Side determination in `GetPositions` (and `GetOrders`): `"LONG"` maps
to `SideLong`, anything else to `SideShort`. -/
def mapSide (positionSide : String) : Side :=
  if positionSide = "LONG" then SideLong else SideShort

/-- `bingx.isReduceOnly`: SELL against a LONG position or BUY against a
SHORT position closes the position. -/
def isReduceOnly (side positionSide : String) : Bool :=
  (side == "SELL" && positionSide == "LONG") ||
    (side == "BUY" && positionSide == "SHORT")

/-- The trigger order types of `mapBingXStatus`. -/
def triggerTypes : List String :=
  ["STOP", "STOP_MARKET", "TAKE_PROFIT", "TAKE_PROFIT_MARKET"]

/-- `bingx.mapBingXStatus`: a trigger order whose raw status is `"NEW"` is
reported as `"PENDING"`; every other (status, type) pair passes through. -/
def mapBingXStatus (bingxStatus : String) (orderType : String) : OrderStatus :=
  if triggerTypes.contains orderType && bingxStatus == "NEW" then "PENDING"
  else bingxStatus

/-- The `filter != nil && filter.Side != nil && *filter.Side != side`
skip condition of `GetPositions`. -/
def positionFilterRejects (filter : Option PositionFilter) (side : Side) : Bool :=
  match filter with
  | none => false
  | some f =>
    match f.side with
    | none => false
    | some s => s != side

/-- Normalization loop body of `GetPositions`: `none` when the wire
position is skipped, otherwise the materialized `broker.Position`. -/
def normalizePosition (filter : Option PositionFilter) (pos : PositionData) :
    Option Position :=
  let size := parseFloatOrZero pos.positionAmt
  if size = 0 then none
  else
    let side := mapSide pos.positionSide
    if positionFilterRejects filter side then none
    else
      some
        { symbol := pos.symbol
          side := side
          size := size
          entryPrice := parseFloatOrZero pos.avgPrice
          markPrice := parseFloatOrZero pos.markPrice
          liquidationPrice := (pos.GetLiquidationPriceFloat.toOption).getD 0
          leverage := truncToInt ((pos.GetLeverageFloat.toOption).getD 0)
          unrealizedPnL := parseFloatOrZero pos.unrealizedProfit
          realizedPnL := parseFloatOrZero pos.realisedProfit
          margin := parseFloatOrZero pos.initialMargin
          maintenanceMargin := parseFloatOrZero pos.maintenanceMargin }

/-- `bingx.Client.GetPositions` from the decoded envelope on: non-success
code fails with the `API_<code>` error, otherwise each wire position is
normalized, skipping zero-size and filtered-out entries. -/
def GetPositions (resp : PositionsResponse) (filter : Option PositionFilter) :
    Except BrokerErr (List Position) :=
  if resp.code ≠ APISuccessCode then .error (apiError resp.code resp.msg)
  else .ok (resp.data.filterMap (normalizePosition filter))

/-- `bingx.Client.GetPosition`: `GetPositions` under a symbol-only filter;
empty list means `broker.ErrPositionNotFound`, otherwise the first
element. -/
def GetPosition (resp : PositionsResponse) (symbol : String) :
    Except BrokerErr Position :=
  match GetPositions resp (some { symbol := symbol, side := none }) with
  | .error e => .error e
  | .ok [] => .error .positionNotFound
  | .ok (p :: _) => .ok p

/-- `bingx.Client.GetBalance` from the decode step on: `none` stands for a
body that failed to unmarshal. -/
def GetBalance (decoded : Option BalanceResponse) : Except BrokerErr Balance :=
  match decoded with
  | none =>
    .error (.brokerError "bingx" "PARSE_ERROR" "Failed to parse balance response")
  | some resp =>
    if resp.code ≠ APISuccessCode then .error (apiError resp.code resp.msg)
    else
      match resp.data with
      | [] => .error (.brokerError "bingx" "NO_DATA" "No balance data returned")
      | data :: _ =>
        .ok
          { asset := data.asset
            total := parseFloatOrZero data.equity
            available := parseFloatOrZero data.availableMargin
            inUse := parseFloatOrZero data.usedMargin
            unrealizedPnL := parseFloatOrZero data.unrealizedProfit
            realizedPnL := parseFloatOrZero data.realisedProfit }

/-- The `filter != nil && filter.Side != nil && *filter.Side !=
broker.OrderStatus(o.Status)` skip condition of `GetOrders`: the `Side`
filter field is compared against the order's raw status string. -/
def orderFilterRejects (filter : Option OrderFilter) (o : OpenOrderData) : Bool :=
  match filter with
  | none => false
  | some f =>
    match f.side with
    | none => false
    | some v => v != o.status

/-- Construction of one `broker.Order` from one wire order in the
`GetOrders` loop. -/
def mkOrder (o : OpenOrderData) : Order :=
  { id := toString o.orderId
    clientOrderID := o.clientOrderID
    symbol := o.symbol
    side := mapSide o.positionSide
    type := o.type
    status := mapBingXStatus o.status o.type
    size := parseFloatOrZero o.quantity
    price := parseFloatOrZero o.price
    stopPrice := parseFloatOrZero o.stopPrice
    filledSize := parseFloatOrZero o.executedQty
    averagePrice := parseFloatOrZero o.avgPrice
    reduceOnly := isReduceOnly o.side o.positionSide
    timeInForce := o.timeInForce
    createdAt := o.time.tdiv 1000
    updatedAt := o.updateTime.tdiv 1000 }

/-- `bingx.Client.GetOrders` from the decoded envelope on. -/
def GetOrders (resp : OpenOrdersResponse) (filter : Option OrderFilter) :
    Except BrokerErr (List Order) :=
  if resp.code ≠ APISuccessCode then .error (apiError resp.code resp.msg)
  else .ok ((resp.orders.filter (fun o => !orderFilterRejects filter o)).map mkOrder)

/-! ## Request signing (`sign` and `makeRequest` in `client.go`)

Keys and values are UTF-8 byte strings, modelled as lists of byte values;
`queryEscape` is Go's `url.QueryEscape` (the query-component escaping used
by `url.Values.Encode`), and `encodeValues` is `url.Values.Encode`, which
emits `key=value` pairs joined by `&` in sorted key order.  HMAC-SHA256 is
a fixed deterministic function of (secret, message); the theorems quantify
over it rather than re-implementing the compression function. -/

abbrev Bytes := List Nat

/-- Bytes left unescaped by Go's query escaping: ASCII letters, digits,
and `-` `_` `.` `~`. -/
def isUnreservedByte (b : Nat) : Bool :=
  (65 ≤ b && b ≤ 90) || (97 ≤ b && b ≤ 122) || (48 ≤ b && b ≤ 57) ||
    b == 45 || b == 95 || b == 46 || b == 126

/-- Uppercase hexadecimal digit byte for a nibble. -/
def hexDigit (n : Nat) : Nat := if n < 10 then 48 + n else 55 + n

/-- `url.QueryEscape`: unreserved bytes pass through, space becomes `+`
(byte 43), every other byte becomes `%XX`. -/
def queryEscape : Bytes → Bytes
  | [] => []
  | b :: t =>
    (if isUnreservedByte b then [b]
     else if b = 32 then [43]
     else [37, hexDigit (b / 16), hexDigit (b % 16)]) ++ queryEscape t

/-- Lexicographic byte-string comparison (Go `sort.Strings` order on the
keys inside `url.Values.Encode`). -/
def bytesLe : Bytes → Bytes → Bool
  | [], _ => true
  | _ :: _, [] => false
  | a :: as, b :: bs => a < b || (a == b && bytesLe as bs)

/-- Value associated with a key in the parameter map (`url.Values.Get`).
The parameter set originates from a Go `map[string]string`, so keys are
distinct and the first match is the value. -/
def lookupParam (l : List (Bytes × Bytes)) (k : Bytes) : Bytes :=
  match l.find? (fun p => p.1 == k) with
  | some p => p.2
  | none => []

/-- Join byte strings with `&` (byte 38). -/
def joinAmp : List Bytes → Bytes
  | [] => []
  | [s] => s
  | s :: t => s ++ 38 :: joinAmp t

/-- One `key=value` segment of the canonical query string: escaped key,
`=` (byte 61), escaped value. -/
def encodePair (l : List (Bytes × Bytes)) (k : Bytes) : Bytes :=
  queryEscape k ++ 61 :: queryEscape (lookupParam l k)

/-- `url.Values.Encode()` over the parameter map: segments for the sorted
keys, joined by `&`.  This is the canonical string handed to `sign`. -/
def encodeValues (l : List (Bytes × Bytes)) : Bytes :=
  joinAmp (((l.map Prod.fst).mergeSort bytesLe).map (encodePair l))

/-- Go map assignment `params[k] = v`: any previous binding of `k` is
replaced. -/
def mapSet (l : List (Bytes × Bytes)) (k v : Bytes) : List (Bytes × Bytes) :=
  (k, v) :: l.filter (fun p => !(p.1 == k))

/-- The bytes of `"timestamp"`. -/
def timestampKey : Bytes := [116, 105, 109, 101, 115, 116, 97, 109, 112]

/-- The bytes of `"signature"`. -/
def signatureKey : Bytes := [115, 105, 103, 110, 97, 116, 117, 114, 101]

/-- The authenticated request assembled by `makeRequest`: the string that
was signed, the signature, and the final query-string portion of the URL. -/
structure SignedRequest where
  signedString : Bytes
  signature : Bytes
  query : Bytes
deriving DecidableEq, Repr

/-- `makeRequest` up to the transport call: inject the timestamp parameter,
canonicalize, sign the canonical string with the secret, and append
`&signature=<sig>` after the signed portion of the URL. -/
def makeRequest (hmacSha256 : Bytes → Bytes → Bytes) (secretKey : Bytes)
    (params : List (Bytes × Bytes)) (timestamp : Bytes) : SignedRequest :=
  let ps := mapSet params timestampKey timestamp
  let queryString := encodeValues ps
  let signature := hmacSha256 secretKey queryString
  { signedString := queryString
    signature := signature
    query := queryString ++ 38 :: (signatureKey ++ 61 :: signature) }

/-! ## Signer lemmas -/

theorem unreserved_not_special {b : Nat} (h : isUnreservedByte b = true) :
    b ≠ 43 ∧ b ≠ 37 ∧ b ≠ 38 ∧ b ≠ 61 ∧ b ≠ 32 := by
  simp only [isUnreservedByte, Bool.or_eq_true, Bool.and_eq_true,
    decide_eq_true_eq, beq_iff_eq] at h
  omega

theorem hexDigit_ne_special (n : Nat) :
    hexDigit n ≠ 38 ∧ hexDigit n ≠ 61 ∧ hexDigit n ≠ 43 ∧ hexDigit n ≠ 37 := by
  rw [hexDigit]
  split <;> omega

theorem hexDigit_inj {m n : Nat} (hm : m < 16) (hn : n < 16)
    (h : hexDigit m = hexDigit n) : m = n := by
  rw [hexDigit, hexDigit] at h
  split at h <;> split at h <;> omega

/-- Escaping is injective on byte strings. -/
theorem queryEscape_inj :
    ∀ l₁ l₂ : Bytes, (∀ b ∈ l₁, b < 256) → (∀ b ∈ l₂, b < 256) →
      queryEscape l₁ = queryEscape l₂ → l₁ = l₂ := by
  intro l₁
  induction l₁ with
  | nil =>
    intro l₂ _ _ h
    cases l₂ with
    | nil => rfl
    | cons b t =>
      rw [queryEscape, queryEscape] at h
      exfalso
      by_cases hu : isUnreservedByte b = true
      · rw [if_pos hu] at h
        exact List.noConfusion h
      · rw [if_neg hu] at h
        by_cases hsp : b = 32
        · rw [if_pos hsp] at h
          exact List.noConfusion h
        · rw [if_neg hsp] at h
          exact List.noConfusion h
  | cons b₁ t₁ ih =>
    intro l₂ h₁ h₂ h
    have hb₁ : b₁ < 256 := h₁ b₁ (List.mem_cons_self _ _)
    have ht₁ : ∀ b ∈ t₁, b < 256 := fun b hb => h₁ b (List.mem_cons_of_mem _ hb)
    cases l₂ with
    | nil =>
      rw [queryEscape, queryEscape] at h
      exfalso
      by_cases hu : isUnreservedByte b₁ = true
      · rw [if_pos hu] at h
        exact List.noConfusion h
      · rw [if_neg hu] at h
        by_cases hsp : b₁ = 32
        · rw [if_pos hsp] at h
          exact List.noConfusion h
        · rw [if_neg hsp] at h
          exact List.noConfusion h
    | cons b₂ t₂ =>
      have hb₂ : b₂ < 256 := h₂ b₂ (List.mem_cons_self _ _)
      have ht₂ : ∀ b ∈ t₂, b < 256 := fun b hb => h₂ b (List.mem_cons_of_mem _ hb)
      rw [queryEscape, queryEscape] at h
      by_cases hu₁ : isUnreservedByte b₁ = true <;>
        by_cases hu₂ : isUnreservedByte b₂ = true
      · -- both unreserved
        rw [if_pos hu₁, if_pos hu₂, List.cons_append, List.cons_append,
          List.nil_append, List.nil_append] at h
        obtain ⟨hb, ht⟩ := List.cons.inj h
        rw [hb, ih t₂ ht₁ ht₂ ht]
      · -- left unreserved, right escaped or space
        exfalso
        obtain ⟨h43, h37, -, -, -⟩ := unreserved_not_special hu₁
        rw [if_pos hu₁, if_neg hu₂, List.cons_append, List.nil_append] at h
        by_cases hsp : b₂ = 32
        · rw [if_pos hsp, List.cons_append, List.nil_append] at h
          exact h43 (List.cons.inj h).1
        · rw [if_neg hsp, List.cons_append] at h
          exact h37 (List.cons.inj h).1
      · -- left escaped or space, right unreserved
        exfalso
        obtain ⟨h43, h37, -, -, -⟩ := unreserved_not_special hu₂
        rw [if_neg hu₁, if_pos hu₂, List.cons_append, List.nil_append] at h
        by_cases hsp : b₁ = 32
        · rw [if_pos hsp, List.cons_append, List.nil_append] at h
          exact h43 (List.cons.inj h).1.symm
        · rw [if_neg hsp, List.cons_append] at h
          exact h37 (List.cons.inj h).1.symm
      · -- neither unreserved
        rw [if_neg hu₁, if_neg hu₂] at h
        by_cases hsp₁ : b₁ = 32 <;> by_cases hsp₂ : b₂ = 32
        · rw [if_pos hsp₁, if_pos hsp₂, List.cons_append, List.cons_append,
            List.nil_append, List.nil_append] at h
          rw [hsp₁, hsp₂, ih t₂ ht₁ ht₂ (List.cons.inj h).2]
        · exfalso
          rw [if_pos hsp₁, if_neg hsp₂] at h
          simp only [List.cons_append, List.nil_append] at h
          exact absurd (List.cons.inj h).1 (by decide)
        · exfalso
          rw [if_neg hsp₁, if_pos hsp₂] at h
          simp only [List.cons_append, List.nil_append] at h
          exact absurd (List.cons.inj h).1 (by decide)
        · rw [if_neg hsp₁, if_neg hsp₂, List.cons_append, List.cons_append] at h
          obtain ⟨-, h'⟩ := List.cons.inj h
          obtain ⟨hhi, h''⟩ := List.cons.inj h'
          obtain ⟨hlo, ht⟩ := List.cons.inj h''
          have hdiv : b₁ / 16 = b₂ / 16 :=
            hexDigit_inj (by omega) (by omega) hhi
          have hmod : b₁ % 16 = b₂ % 16 :=
            hexDigit_inj (Nat.mod_lt _ (by omega)) (Nat.mod_lt _ (by omega)) hlo
          have : b₁ = b₂ := by omega
          rw [this, ih t₂ ht₁ ht₂ ht]

/-- Escaped output never contains the separators `&` (38) or `=` (61). -/
theorem queryEscape_no_sep :
    ∀ l : Bytes, ∀ b ∈ queryEscape l, b ≠ 38 ∧ b ≠ 61 := by
  intro l
  induction l with
  | nil => intro b hb; exact absurd hb (List.not_mem_nil b)
  | cons x t ih =>
    intro b hb
    rw [queryEscape] at hb
    rcases List.mem_append.mp hb with hb | hb
    · by_cases hu : isUnreservedByte x = true
      · rw [if_pos hu] at hb
        obtain ⟨-, -, h38, h61, -⟩ := unreserved_not_special hu
        rcases List.mem_singleton.mp hb with rfl
        exact ⟨h38, h61⟩
      · rw [if_neg hu] at hb
        by_cases hsp : x = 32
        · rw [if_pos hsp] at hb
          rcases List.mem_singleton.mp hb with rfl
          exact ⟨by omega, by omega⟩
        · rw [if_neg hsp] at hb
          simp only [List.mem_cons, List.not_mem_nil, or_false] at hb
          rcases hb with rfl | rfl | rfl
          · exact ⟨by omega, by omega⟩
          · exact ⟨(hexDigit_ne_special _).1, (hexDigit_ne_special _).2.1⟩
          · exact ⟨(hexDigit_ne_special _).1, (hexDigit_ne_special _).2.1⟩
    · exact ih b hb

/-- Splitting at the first separator occurrence is unambiguous. -/
theorem append_sep_inj :
    ∀ (s t r₁ r₂ : Bytes), 38 ∉ s → 38 ∉ t →
      s ++ 38 :: r₁ = t ++ 38 :: r₂ → s = t ∧ r₁ = r₂ := by
  intro s
  induction s with
  | nil =>
    intro t r₁ r₂ _ ht h
    cases t with
    | nil =>
      simp only [List.nil_append] at h
      exact ⟨rfl, (List.cons.inj h).2⟩
    | cons b t' =>
      simp only [List.nil_append, List.cons_append] at h
      obtain ⟨hb, -⟩ := List.cons.inj h
      subst hb
      exact absurd (List.mem_cons_self _ _) ht
  | cons a s' ih =>
    intro t r₁ r₂ hs ht h
    cases t with
    | nil =>
      simp only [List.nil_append, List.cons_append] at h
      obtain ⟨hb, -⟩ := List.cons.inj h
      subst hb
      exact absurd (List.mem_cons_self _ _) hs
    | cons b t' =>
      simp only [List.cons_append] at h
      obtain ⟨hab, htail⟩ := List.cons.inj h
      obtain ⟨hst, hr⟩ := ih t' r₁ r₂ (fun hm => hs (List.mem_cons_of_mem _ hm))
        (fun hm => ht (List.mem_cons_of_mem _ hm)) htail
      exact ⟨by rw [hab, hst], hr⟩

theorem joinAmp_singleton (s : Bytes) : joinAmp [s] = s := rfl

theorem joinAmp_cons_cons (s s₂ : Bytes) (ss : List Bytes) :
    joinAmp (s :: s₂ :: ss) = s ++ 38 :: joinAmp (s₂ :: ss) := rfl

/-- `joinAmp` is injective on equal-length lists of separator-free
segments. -/
theorem joinAmp_inj :
    ∀ (ss ts : List Bytes), ss.length = ts.length →
      (∀ s ∈ ss, 38 ∉ s) → (∀ t ∈ ts, 38 ∉ t) →
      joinAmp ss = joinAmp ts → ss = ts := by
  intro ss
  induction ss with
  | nil =>
    intro ts hlen _ _ _
    exact (List.length_eq_zero.mp hlen.symm).symm ▸ rfl
  | cons s ss' ih =>
    intro ts hlen hss hts h
    cases ts with
    | nil => exact absurd hlen (by simp)
    | cons t ts' =>
      cases ss' with
      | nil =>
        cases ts' with
        | nil => rw [joinAmp_singleton, joinAmp_singleton] at h; rw [h]
        | cons u us => exact absurd hlen (by simp)
      | cons s₂ ss₂ =>
        cases ts' with
        | nil => exact absurd hlen (by simp)
        | cons t₂ ts₂ =>
          rw [joinAmp_cons_cons, joinAmp_cons_cons] at h
          obtain ⟨hst, htail⟩ := append_sep_inj s t _ _
            (hss s (List.mem_cons_self _ _)) (hts t (List.mem_cons_self _ _)) h
          have := ih (t₂ :: ts₂) (by simpa using hlen)
            (fun x hx => hss x (List.mem_cons_of_mem _ hx))
            (fun x hx => hts x (List.mem_cons_of_mem _ hx)) htail
          rw [hst, this]

theorem bytesLe_total : ∀ a b : Bytes, bytesLe a b || bytesLe b a := by
  intro a
  induction a with
  | nil => intro b; simp [bytesLe]
  | cons x xs ih =>
    intro b
    cases b with
    | nil => simp [bytesLe]
    | cons y ys =>
      simp only [bytesLe, Bool.or_eq_true, Bool.and_eq_true, decide_eq_true_eq,
        beq_iff_eq]
      rcases Nat.lt_trichotomy x y with h | h | h
      · exact Or.inl (Or.inl h)
      · subst h
        rcases Bool.or_eq_true _ _ |>.mp (ih ys) with h | h
        · exact Or.inl (Or.inr ⟨rfl, h⟩)
        · exact Or.inr (Or.inr ⟨rfl, h⟩)
      · exact Or.inr (Or.inl h)

theorem bytesLe_trans : ∀ a b c : Bytes, bytesLe a b → bytesLe b c → bytesLe a c := by
  intro a
  induction a with
  | nil => intro b c _ _; simp [bytesLe]
  | cons x xs ih =>
    intro b c h₁ h₂
    cases b with
    | nil => simp [bytesLe] at h₁
    | cons y ys =>
      cases c with
      | nil => simp [bytesLe] at h₂
      | cons z zs =>
        simp only [bytesLe, Bool.or_eq_true, Bool.and_eq_true,
          decide_eq_true_eq, beq_iff_eq] at h₁ h₂ ⊢
        rcases h₁ with h₁ | ⟨h₁, h₁'⟩ <;> rcases h₂ with h₂ | ⟨h₂, h₂'⟩
        · exact Or.inl (by omega)
        · exact Or.inl (by omega)
        · exact Or.inl (by omega)
        · exact Or.inr ⟨h₁.trans h₂, ih ys zs h₁' h₂'⟩

theorem bytesLe_antisymm : ∀ a b : Bytes, bytesLe a b → bytesLe b a → a = b := by
  intro a
  induction a with
  | nil =>
    intro b _ h₂
    cases b with
    | nil => rfl
    | cons y ys => simp [bytesLe] at h₂
  | cons x xs ih =>
    intro b h₁ h₂
    cases b with
    | nil => simp [bytesLe] at h₁
    | cons y ys =>
      simp only [bytesLe, Bool.or_eq_true, Bool.and_eq_true, decide_eq_true_eq,
        beq_iff_eq] at h₁ h₂
      rcases h₁ with h₁ | ⟨h₁, h₁'⟩ <;> rcases h₂ with h₂ | ⟨h₂, h₂'⟩ <;>
        first
          | omega
          | exact (absurd h₂ (by omega))
          | rw [h₁, ih ys h₁' h₂']

/-- Sorting the key multiset is order-insensitive: permuted parameter lists
have identical sorted key lists. -/
theorem mergeSort_keys_eq {l₁ l₂ : List (Bytes × Bytes)} (hperm : l₁.Perm l₂) :
    (l₁.map Prod.fst).mergeSort bytesLe = (l₂.map Prod.fst).mergeSort bytesLe := by
  letI : IsAntisymm Bytes (fun a b => bytesLe a b = true) :=
    ⟨fun a b => bytesLe_antisymm a b⟩
  exact List.eq_of_perm_of_sorted (r := fun a b => bytesLe a b = true)
    ((List.mergeSort_perm _ _).trans
      ((hperm.map Prod.fst).trans (List.mergeSort_perm _ _).symm))
    (List.sorted_mergeSort (fun a b c => bytesLe_trans a b c)
      (fun a b => bytesLe_total a b) _)
    (List.sorted_mergeSort (fun a b c => bytesLe_trans a b c)
      (fun a b => bytesLe_total a b) _)

/-- With distinct keys, the key lookup is invariant under permutation of
the parameter list. -/
theorem find?_key_perm :
    ∀ {l₁ l₂ : List (Bytes × Bytes)}, l₁.Perm l₂ →
      (l₁.map Prod.fst).Nodup → ∀ k,
      l₁.find? (fun p => p.1 == k) = l₂.find? (fun p => p.1 == k) := by
  intro l₁ l₂ h
  induction h with
  | nil => intro _ _; rfl
  | cons x h ih =>
    intro hnd k
    rw [List.map_cons] at hnd
    have hnd' := (List.nodup_cons.mp hnd).2
    cases hx : ((fun p : Bytes × Bytes => p.1 == k) x)
    · rw [List.find?_cons_of_neg _ (by simp_all), List.find?_cons_of_neg _ (by simp_all)]
      exact ih hnd' k
    · rw [List.find?_cons_of_pos _ (by simp_all), List.find?_cons_of_pos _ (by simp_all)]
  | swap x y l =>
    intro hnd k
    rw [List.map_cons, List.map_cons] at hnd
    have hnd' := List.nodup_cons.mp hnd
    cases hy : ((fun p : Bytes × Bytes => p.1 == k) y) <;>
      cases hx : ((fun p : Bytes × Bytes => p.1 == k) x)
    · rw [List.find?_cons_of_neg _ (by simp_all), List.find?_cons_of_neg _ (by simp_all),
        List.find?_cons_of_neg _ (by simp_all), List.find?_cons_of_neg _ (by simp_all)]
    · rw [List.find?_cons_of_neg _ (by simp_all), List.find?_cons_of_pos _ (by simp_all),
        List.find?_cons_of_pos _ (by simp_all)]
    · rw [List.find?_cons_of_pos _ (by simp_all), List.find?_cons_of_neg _ (by simp_all),
        List.find?_cons_of_pos _ (by simp_all)]
    · exfalso
      have h1 : y.1 = k := by simpa using hy
      have h2 : x.1 = k := by simpa using hx
      exact hnd'.1 ((h1.trans h2.symm) ▸ List.mem_cons_self _ _)
  | trans h₁ h₂ ih₁ ih₂ =>
    intro hnd k
    exact (ih₁ hnd k).trans (ih₂ (((h₁.map Prod.fst).nodup_iff).mp hnd) k)

theorem lookupParam_perm {l₁ l₂ : List (Bytes × Bytes)} (h : l₁.Perm l₂)
    (hnd : (l₁.map Prod.fst).Nodup) (k : Bytes) :
    lookupParam l₁ k = lookupParam l₂ k := by
  rw [lookupParam, lookupParam, find?_key_perm h hnd k]

/-- Canonical-query-string determinism: the encoding depends only on the
key-value set, not on the order the parameters are listed in. -/
theorem encodeValues_perm {l₁ l₂ : List (Bytes × Bytes)} (h : l₁.Perm l₂)
    (hnd : (l₁.map Prod.fst).Nodup) :
    encodeValues l₁ = encodeValues l₂ := by
  rw [encodeValues, encodeValues, mergeSort_keys_eq h]
  exact congrArg joinAmp (List.map_congr_left (fun k _ => by
    rw [encodePair, encodePair, lookupParam_perm h hnd k]))

/-- No canonical-query-string segment contains the `&` separator. -/
theorem amp_not_mem_encodePair (l : List (Bytes × Bytes)) (k : Bytes) :
    38 ∉ encodePair l k := by
  rw [encodePair]
  intro hm
  rcases List.mem_append.mp hm with hm | hm
  · exact (queryEscape_no_sep _ _ hm).1 rfl
  · rcases List.mem_cons.mp hm with h | hm
    · exact absurd h (by decide)
    · exact (queryEscape_no_sep _ _ hm).1 rfl

theorem lookupParam_cons_self (k v : Bytes) (t : List (Bytes × Bytes)) :
    lookupParam ((k, v) :: t) k = v := by
  rw [lookupParam, List.find?_cons_of_pos _ (by simp)]

theorem lookupParam_cons_ne {k k' : Bytes} (v : Bytes)
    (t : List (Bytes × Bytes)) (h : k ≠ k') :
    lookupParam ((k, v) :: t) k' = lookupParam t k' := by
  rw [lookupParam, List.find?_cons_of_neg _ (by simp [h]), lookupParam]

/-- Two parameter lists with the same (distinct) key sequence and the same
lookups are equal. -/
theorem eq_of_keys_lookups :
    ∀ (l₁ l₂ : List (Bytes × Bytes)), l₁.map Prod.fst = l₂.map Prod.fst →
      (l₁.map Prod.fst).Nodup →
      (∀ k ∈ l₁.map Prod.fst, lookupParam l₁ k = lookupParam l₂ k) →
      l₁ = l₂ := by
  intro l₁
  induction l₁ with
  | nil =>
    intro l₂ hk _ _
    exact (List.map_eq_nil_iff.mp hk.symm).symm
  | cons p t₁ ih =>
    intro l₂ hk hnd hL
    obtain ⟨k, v⟩ := p
    cases l₂ with
    | nil => exact absurd hk (by simp)
    | cons p₂ t₂ =>
      obtain ⟨k₂, v₂⟩ := p₂
      rw [List.map_cons, List.map_cons] at hk
      obtain ⟨hk1, hkt⟩ := List.cons.inj hk
      rw [List.map_cons] at hnd
      obtain ⟨hmem, hndt⟩ := List.nodup_cons.mp hnd
      dsimp only at hk1 hkt hmem
      subst hk1
      have hv := hL k (by rw [List.map_cons]; exact List.mem_cons_self _ _)
      rw [lookupParam_cons_self, lookupParam_cons_self] at hv
      subst hv
      have htl : ∀ k' ∈ t₁.map Prod.fst, lookupParam t₁ k' = lookupParam t₂ k' := by
        intro k' hkm
        have hkp : k ≠ k' := fun he => hmem (he ▸ hkm)
        have := hL k' (by rw [List.map_cons]; exact List.mem_cons_of_mem _ hkm)
        rwa [lookupParam_cons_ne _ _ hkp, lookupParam_cons_ne _ _ hkp] at this
      rw [ih t₂ hkt hndt htl]

/-- With the same (distinct) keys and in-range value bytes, the canonical
query string determines the parameter values: mutating any value changes
the encoding. -/
theorem encodeValues_inj_values :
    ∀ (l₁ l₂ : List (Bytes × Bytes)),
      l₁.map Prod.fst = l₂.map Prod.fst →
      (l₁.map Prod.fst).Nodup →
      (∀ p ∈ l₁, ∀ b ∈ p.2, b < 256) →
      (∀ p ∈ l₂, ∀ b ∈ p.2, b < 256) →
      encodeValues l₁ = encodeValues l₂ → l₁ = l₂ := by
  intro l₁ l₂ hk hnd hb₁ hb₂ henc
  apply eq_of_keys_lookups l₁ l₂ hk hnd
  intro k hkm
  rw [encodeValues, encodeValues, ← hk] at henc
  have hseg := joinAmp_inj _ _ (by simp) (fun s hs => by
      obtain ⟨k', -, rfl⟩ := List.mem_map.mp hs
      exact amp_not_mem_encodePair _ _)
    (fun s hs => by
      obtain ⟨k', -, rfl⟩ := List.mem_map.mp hs
      exact amp_not_mem_encodePair _ _) henc
  have hkS : k ∈ (l₁.map Prod.fst).mergeSort bytesLe :=
    (List.mergeSort_perm (l₁.map Prod.fst) bytesLe).mem_iff.mpr hkm
  have hpair : encodePair l₁ k = encodePair l₂ k :=
    List.map_inj_left.mp hseg k hkS
  rw [encodePair, encodePair] at hpair
  have hqv := (List.cons.inj (List.append_cancel_left hpair)).2
  have hv₁ : ∀ b ∈ lookupParam l₁ k, b < 256 := by
    obtain ⟨p, hpmem, hpk⟩ := List.mem_map.mp hkm
    have hsome : (l₁.find? (fun p => p.1 == k)).isSome :=
      List.find?_isSome.mpr ⟨p, hpmem, by simp [hpk]⟩
    obtain ⟨q, hfind⟩ := Option.isSome_iff_exists.mp hsome
    rw [lookupParam, hfind]
    exact hb₁ q (List.mem_of_find?_eq_some hfind)
  have hv₂ : ∀ b ∈ lookupParam l₂ k, b < 256 := by
    obtain ⟨p, hpmem, hpk⟩ := List.mem_map.mp (hk ▸ hkm)
    have hsome : (l₂.find? (fun p => p.1 == k)).isSome :=
      List.find?_isSome.mpr ⟨p, hpmem, by simp [hpk]⟩
    obtain ⟨q, hfind⟩ := Option.isSome_iff_exists.mp hsome
    rw [lookupParam, hfind]
    exact hb₂ q (List.mem_of_find?_eq_some hfind)
  exact queryEscape_inj _ _ hv₁ hv₂ hqv

/-! ## Claims -/

/-- C5: request signing is deterministic — permuting a parameter map with
distinct keys leaves the canonical sorted query string, and hence any
keyed-hash signature of it, unchanged; with the same keys and byte-valued
parameters, changing any value changes the canonical string; and
`makeRequest` signs exactly the canonical string of the
timestamp-augmented parameters, appending `&signature=<sig>` outside the
signed portion, so the signed string does not depend on the signature
function. -/
theorem request_signing_canonical :
    (∀ (l₁ l₂ : List (Bytes × Bytes)), l₁.Perm l₂ →
      (l₁.map Prod.fst).Nodup →
      encodeValues l₁ = encodeValues l₂ ∧
      ∀ (hmacSha256 : Bytes → Bytes → Bytes) (secretKey : Bytes),
        hmacSha256 secretKey (encodeValues l₁) =
          hmacSha256 secretKey (encodeValues l₂)) ∧
    (∀ (l₁ l₂ : List (Bytes × Bytes)),
      l₁.map Prod.fst = l₂.map Prod.fst → (l₁.map Prod.fst).Nodup →
      (∀ p ∈ l₁, ∀ b ∈ p.2, b < 256) → (∀ p ∈ l₂, ∀ b ∈ p.2, b < 256) →
      l₁ ≠ l₂ → encodeValues l₁ ≠ encodeValues l₂) ∧
    (∀ (hmacSha256 : Bytes → Bytes → Bytes) (secretKey : Bytes)
        (params : List (Bytes × Bytes)) (timestamp : Bytes),
      (makeRequest hmacSha256 secretKey params timestamp).signedString =
        encodeValues (mapSet params timestampKey timestamp) ∧
      (makeRequest hmacSha256 secretKey params timestamp).signature =
        hmacSha256 secretKey
          (makeRequest hmacSha256 secretKey params timestamp).signedString ∧
      (makeRequest hmacSha256 secretKey params timestamp).query =
        (makeRequest hmacSha256 secretKey params timestamp).signedString ++
          38 :: (signatureKey ++ 61 ::
            (makeRequest hmacSha256 secretKey params timestamp).signature) ∧
      ∀ hmac2 : Bytes → Bytes → Bytes,
        (makeRequest hmac2 secretKey params timestamp).signedString =
          (makeRequest hmacSha256 secretKey params timestamp).signedString) := by
  refine ⟨?_, ?_, ?_⟩
  · intro l₁ l₂ hperm hnd
    have he := encodeValues_perm hperm hnd
    exact ⟨he, fun f secret => by rw [he]⟩
  · intro l₁ l₂ hk hnd hb₁ hb₂ hne henc
    exact hne (encodeValues_inj_values l₁ l₂ hk hnd hb₁ hb₂ henc)
  · intro f secret params ts
    exact ⟨rfl, rfl, rfl, fun g => rfl⟩

/-- C5, witness: a two-parameter map in both orders yields the same
canonical string, while changing one value changes it. -/
theorem request_signing_canonical_witness :
    encodeValues [([97], [49]), ([98], [50])] =
      encodeValues [([98], [50]), ([97], [49])] ∧
    encodeValues [([97], [49])] ≠ encodeValues [([97], [50])] :=
  ⟨(request_signing_canonical.1 [([97], [49]), ([98], [50])]
      [([98], [50]), ([97], [49])] (List.Perm.swap _ _ _) (by decide)).1,
    request_signing_canonical.2.1 [([97], [49])] [([97], [50])] rfl
      (by decide) (by decide) (by decide) (by decide)⟩

/-- C1, counterexample: the numeric-ambiguity decoder does not fail on
every non-string non-number shape — on JSON `null`,
`GetLiquidationPriceFloat` succeeds with `0`; and on the empty JSON string,
`GetLeverageFloat` fails instead of succeeding with `0`. -/
theorem numeric_ambiguity_decoder_counterexample :
    PositionData.GetLiquidationPriceFloat { liquidationPrice := JsonValue.null } =
      .ok 0 ∧
    (PositionData.GetLeverageFloat { leverage := JsonValue.str "" }).isOk = false := by
  decide

/-- C1 (amended): on a JSON number both decoders succeed with that number;
on a non-empty JSON string both parse it as a decimal numeral and fail when
it is not one; on the empty string and on JSON `null` (which Go's decoder
leaves as the zero-value string) `GetLiquidationPriceFloat` succeeds with
`0` while `GetLeverageFloat` fails; on booleans, objects and arrays both
fail. -/
theorem numeric_ambiguity_decoder_amended (p : PositionData) :
    (∀ q, p.leverage = .num q → p.GetLeverageFloat = .ok q) ∧
    (∀ q, p.liquidationPrice = .num q → p.GetLiquidationPriceFloat = .ok q) ∧
    (∀ s q, p.leverage = .str s → parseFloat s = some q →
      p.GetLeverageFloat = .ok q) ∧
    (∀ s q, p.liquidationPrice = .str s → parseFloat s = some q →
      p.GetLiquidationPriceFloat = .ok q) ∧
    (∀ s, p.leverage = .str s → parseFloat s = none →
      p.GetLeverageFloat.isOk = false) ∧
    (∀ s, p.liquidationPrice = .str s → s ≠ "" → parseFloat s = none →
      p.GetLiquidationPriceFloat.isOk = false) ∧
    (p.liquidationPrice = .str "" → p.GetLiquidationPriceFloat = .ok 0) ∧
    (p.leverage = .str "" → p.GetLeverageFloat.isOk = false) ∧
    (p.liquidationPrice = .null → p.GetLiquidationPriceFloat = .ok 0) ∧
    (p.leverage = .null → p.GetLeverageFloat.isOk = false) ∧
    (∀ b, p.leverage = .bool b → p.GetLeverageFloat.isOk = false) ∧
    (∀ b, p.liquidationPrice = .bool b → p.GetLiquidationPriceFloat.isOk = false) ∧
    (p.leverage = .obj ∨ p.leverage = .arr → p.GetLeverageFloat.isOk = false) ∧
    (p.liquidationPrice = .obj ∨ p.liquidationPrice = .arr →
      p.GetLiquidationPriceFloat.isOk = false) := by
  have hempty : parseFloat "" = none := by decide
  refine ⟨?_, ?_, ?_, ?_, ?_, ?_, ?_, ?_, ?_, ?_, ?_, ?_, ?_, ?_⟩
  · intro q h
    simp [PositionData.GetLeverageFloat, h, unmarshalString, unmarshalFloat]
  · intro q h
    simp [PositionData.GetLiquidationPriceFloat, h, unmarshalString, unmarshalFloat]
  · intro s q h hp
    simp [PositionData.GetLeverageFloat, h, unmarshalString, hp]
  · intro s q h hp
    have hs : s ≠ "" := by
      intro hs; rw [hs, hempty] at hp; exact Option.noConfusion hp
    simp [PositionData.GetLiquidationPriceFloat, h, unmarshalString, hs, hp]
  · intro s h hp
    simp [PositionData.GetLeverageFloat, h, unmarshalString, hp, Except.isOk, Except.toBool]
  · intro s h hs hp
    simp [PositionData.GetLiquidationPriceFloat, h, unmarshalString, hs, hp,
      Except.isOk, Except.toBool]
  · intro h
    simp [PositionData.GetLiquidationPriceFloat, h, unmarshalString]
  · intro h
    simp [PositionData.GetLeverageFloat, h, unmarshalString, hempty, Except.isOk, Except.toBool]
  · intro h
    simp [PositionData.GetLiquidationPriceFloat, h, unmarshalString]
  · intro h
    simp [PositionData.GetLeverageFloat, h, unmarshalString, hempty, Except.isOk, Except.toBool]
  · intro b h
    simp [PositionData.GetLeverageFloat, h, unmarshalString, unmarshalFloat,
      Except.isOk, Except.toBool]
  · intro b h
    simp [PositionData.GetLiquidationPriceFloat, h, unmarshalString,
      unmarshalFloat, Except.isOk, Except.toBool]
  · rintro (h | h) <;>
      simp [PositionData.GetLeverageFloat, h, unmarshalString, unmarshalFloat,
        Except.isOk, Except.toBool]
  · rintro (h | h) <;>
      simp [PositionData.GetLiquidationPriceFloat, h, unmarshalString,
        unmarshalFloat, Except.isOk, Except.toBool]

/-- C1, witness: the amended characterization at concrete inputs. -/
theorem numeric_ambiguity_decoder_amended_witness :
    PositionData.GetLeverageFloat { leverage := JsonValue.str "50.5" } =
      .ok (mkRat 101 2) :=
  (numeric_ambiguity_decoder_amended { leverage := JsonValue.str "50.5" }).2.2.1
    "50.5" (mkRat 101 2) rfl (by decide)

/-- The wire position used to exhibit silent zero-defaulting: its leverage
is the unparseable string `"invalid"`. -/
def zeroDefaultPositionWire : PositionData :=
  { symbol := "BTC-USDT"
    positionSide := "LONG"
    positionAmt := "0.1"
    leverage := JsonValue.str "invalid"
    liquidationPrice := JsonValue.str ""
    avgPrice := "45000.00"
    markPrice := "46000.00"
    unrealizedProfit := "100.00" }

/-- C2: the code substitutes `0` for unparseable numeric fields and
succeeds, rather than propagating a parse error: a positions payload whose
leverage does not decode still yields a successful `GetPositions` result
whose position carries `Leverage = 0`, and a balance payload whose equity
does not decode still yields a successful `GetBalance` result with
`Total = 0`. -/
theorem silent_zero_defaulting :
    (PositionData.GetLeverageFloat zeroDefaultPositionWire).isOk = false ∧
    GetPositions { code := 0, data := [zeroDefaultPositionWire], msg := "" } none =
      .ok [{ symbol := "BTC-USDT"
             side := "LONG"
             size := mkRat 1 10
             entryPrice := 45000
             markPrice := 46000
             liquidationPrice := 0
             leverage := 0
             unrealizedPnL := 100
             realizedPnL := 0
             margin := 0
             maintenanceMargin := 0 }] ∧
    parseFloat "not-a-number" = none ∧
    GetBalance (some { code := 0, data := [{ asset := "USDT", equity := "not-a-number" }], msg := "" }) =
      .ok { asset := "USDT"
            total := 0
            available := 0
            inUse := 0
            unrealizedPnL := 0
            realizedPnL := 0 } := by
  decide

/-- C3: in the order-listing path, a trigger-type order (STOP, STOP_MARKET,
TAKE_PROFIT, TAKE_PROFIT_MARKET) with raw status `"NEW"` is normalized to
`"PENDING"`, and every other (type, raw status) pair passes the raw status
through unchanged. -/
theorem trigger_new_maps_to_pending :
    (∀ t s : String, t ∈ triggerTypes → s = "NEW" →
      mapBingXStatus s t = "PENDING") ∧
    (∀ t s : String, ¬(t ∈ triggerTypes ∧ s = "NEW") →
      mapBingXStatus s t = s) ∧
    (∀ o : OpenOrderData, (mkOrder o).status = mapBingXStatus o.status o.type) := by
  refine ⟨?_, ?_, fun o => rfl⟩
  · intro t s ht hs
    subst hs
    fin_cases ht <;> rfl
  · intro t s h
    rw [mapBingXStatus]
    split
    · rename_i hcond
      exact absurd ⟨by simpa using (Bool.and_eq_true _ _ |>.mp hcond).1,
        by simpa using (Bool.and_eq_true _ _ |>.mp hcond).2⟩ h
    · rfl

/-- C3, witness: the mapping at concrete inputs. -/
theorem trigger_new_maps_to_pending_witness :
    mapBingXStatus "NEW" "STOP_MARKET" = "PENDING" ∧
    mapBingXStatus "NEW" "LIMIT" = "NEW" ∧
    mapBingXStatus "FILLED" "STOP_MARKET" = "FILLED" :=
  ⟨trigger_new_maps_to_pending.1 "STOP_MARKET" "NEW" (by decide) rfl,
    trigger_new_maps_to_pending.2.1 "LIMIT" "NEW" (by decide),
    trigger_new_maps_to_pending.2.1 "STOP_MARKET" "FILLED" (by decide)⟩

/-- C6: the position-direction string maps to exactly one of
{LONG, SHORT}: `"LONG"` maps to `SideLong` and every other value maps to
`SideShort`, with no error path. -/
theorem side_mapping_binary :
    (∀ s : String, mapSide s = SideLong ∨ mapSide s = SideShort) ∧
    mapSide "LONG" = SideLong ∧
    (∀ s : String, s ≠ "LONG" → mapSide s = SideShort) := by
  refine ⟨?_, rfl, ?_⟩
  · intro s
    rw [mapSide]
    split
    · exact Or.inl rfl
    · exact Or.inr rfl
  · intro s h
    rw [mapSide, if_neg h]

/-- C6, witness: unknown and empty direction strings map to SHORT. -/
theorem side_mapping_binary_witness :
    mapSide "" = SideShort ∧ mapSide "Both" = SideShort :=
  ⟨side_mapping_binary.2.2 "" (by decide), side_mapping_binary.2.2 "Both" (by decide)⟩

/-- C7: reduce-only inference returns true exactly on (SELL, LONG) and
(BUY, SHORT), and false on every other (action, direction) pair. -/
theorem reduce_only_inference :
    isReduceOnly "SELL" "LONG" = true ∧
    isReduceOnly "BUY" "SHORT" = true ∧
    isReduceOnly "BUY" "LONG" = false ∧
    isReduceOnly "SELL" "SHORT" = false ∧
    (∀ side positionSide : String,
      ¬(side = "SELL" ∧ positionSide = "LONG") →
      ¬(side = "BUY" ∧ positionSide = "SHORT") →
      isReduceOnly side positionSide = false) := by
  refine ⟨rfl, rfl, rfl, rfl, ?_⟩
  intro side positionSide h1 h2
  simp only [isReduceOnly, Bool.or_eq_false_iff, Bool.and_eq_false_iff,
    beq_eq_false_iff_ne, ne_eq]
  constructor
  · by_cases hs : side = "SELL"
    · exact Or.inr (fun hp => h1 ⟨hs, hp⟩)
    · exact Or.inl hs
  · by_cases hs : side = "BUY"
    · exact Or.inr (fun hp => h2 ⟨hs, hp⟩)
    · exact Or.inl hs

/-- C7, witness: an unrelated (action, direction) pair is not
reduce-only. -/
theorem reduce_only_inference_witness : isReduceOnly "HOLD" "NONE" = false :=
  reduce_only_inference.2.2.2.2 "HOLD" "NONE" (by simp) (by simp)

/-- C4: every position materialized by `GetPositions` has nonzero size:
zero-size (and unparseable-size) wire positions are skipped before any
record is built, for every response and every filter. -/
theorem positions_nonzero_size :
    ∀ (resp : PositionsResponse) (filter : Option PositionFilter)
      (ps : List Position), GetPositions resp filter = .ok ps →
      ∀ p ∈ ps, p.size ≠ 0 := by
  intro resp filter ps h p hp
  rw [GetPositions] at h
  split at h
  · exact Except.noConfusion h
  · injection h with h
    subst h
    rcases List.mem_filterMap.mp hp with ⟨pos, _, hf⟩
    simp only [normalizePosition] at hf
    split at hf
    · exact Option.noConfusion hf
    · rename_i hsize
      split at hf
      · exact Option.noConfusion hf
      · injection hf with hf
        rw [← hf]
        simpa using hsize

/-- A concrete one-position wire response (short 1.5 ETH). -/
def singleShortResp : PositionsResponse :=
  { code := 0
    data := [{ symbol := "ETH-USDT", positionSide := "SHORT",
               positionAmt := "1.5", leverage := JsonValue.num 25,
               liquidationPrice := JsonValue.num 3200 }]
    msg := "" }

/-- The position `singleShortResp` normalizes to. -/
def singleShortPos : Position :=
  { symbol := "ETH-USDT", side := "SHORT", size := mkRat 3 2,
    entryPrice := 0, markPrice := 0, liquidationPrice := 3200,
    leverage := 25, unrealizedPnL := 0, realizedPnL := 0, margin := 0,
    maintenanceMargin := 0 }

/-- C4, witness: a one-position response yields a position of nonzero
size. -/
theorem positions_nonzero_size_witness : singleShortPos.size ≠ 0 :=
  positions_nonzero_size singleShortResp none [singleShortPos] (by decide)
    singleShortPos (by decide)

/-- `GetPositions` never fails with the not-found sentinel: its only error
is the `API_<code>` broker error. -/
theorem GetPositions_error_ne_notFound :
    ∀ (resp : PositionsResponse) (filter : Option PositionFilter)
      (e : BrokerErr), GetPositions resp filter = .error e →
      e ≠ .positionNotFound := by
  intro resp filter e h
  rw [GetPositions] at h
  split at h
  · injection h with h
    rw [← h, apiError]
    intro hc
    exact BrokerErr.noConfusion hc
  · exact Except.noConfusion h

/-- C8: `GetPosition` fails with `ErrPositionNotFound` exactly when the
symbol-filtered list is empty, and returns the first element of a
non-empty filtered list verbatim. -/
theorem get_position_first_or_not_found :
    ∀ (resp : PositionsResponse) (symbol : String),
      (GetPosition resp symbol = .error .positionNotFound ↔
        GetPositions resp (some { symbol := symbol, side := none }) = .ok []) ∧
      (∀ p ps,
        GetPositions resp (some { symbol := symbol, side := none }) = .ok (p :: ps) →
        GetPosition resp symbol = .ok p) := by
  intro resp symbol
  refine ⟨⟨?_, ?_⟩, ?_⟩
  · intro h
    rw [GetPosition] at h
    split at h
    · rename_i e hg
      injection h with h
      exact absurd h (GetPositions_error_ne_notFound _ _ _ hg)
    · rename_i hg
      exact hg
    · exact Except.noConfusion h
  · intro h
    rw [GetPosition, h]
  · intro p ps hg
    rw [GetPosition, hg]

/-- C8, witness: the empty filtered list and the singleton filtered list at
concrete inputs. -/
theorem get_position_first_or_not_found_witness :
    GetPosition { code := 0, data := [], msg := "" } "BTC-USDT" =
      .error .positionNotFound ∧
    GetPosition
      { code := 0
        data := [{ symbol := "BTC-USDT", positionSide := "LONG",
                   positionAmt := "2", leverage := JsonValue.str "10",
                   liquidationPrice := JsonValue.str "" }]
        msg := "" } "BTC-USDT" =
      .ok { symbol := "BTC-USDT", side := "LONG", size := 2,
            entryPrice := 0, markPrice := 0, liquidationPrice := 0,
            leverage := 10, unrealizedPnL := 0, realizedPnL := 0,
            margin := 0, maintenanceMargin := 0 } :=
  ⟨(get_position_first_or_not_found _ "BTC-USDT").1.mpr (by decide),
    (get_position_first_or_not_found _ "BTC-USDT").2 _ [] (by decide)⟩

/-- No `API_`-prefixed code equals the `NO_DATA` code. -/
theorem api_code_ne_no_data : ∀ s : String, "API_" ++ s ≠ "NO_DATA" := by
  intro s h
  have hd := congrArg String.data h
  rw [String.data_append] at hd
  simp at hd

/-- C9: `GetBalance` fails with the `NO_DATA` broker error exactly when the
decoded envelope is success-coded with an empty data list; a non-success
envelope code yields the distinct `API_<code>` error and an undecodable
body yields the distinct `PARSE_ERROR` error. -/
theorem balance_no_data_error :
    ∀ d : Option BalanceResponse,
      (GetBalance d =
          .error (.brokerError "bingx" "NO_DATA" "No balance data returned") ↔
        ∃ resp, d = some resp ∧ resp.code = APISuccessCode ∧ resp.data = []) ∧
      (∀ resp, d = some resp → resp.code ≠ APISuccessCode →
        GetBalance d = .error (apiError resp.code resp.msg) ∧
        apiError resp.code resp.msg ≠
          .brokerError "bingx" "NO_DATA" "No balance data returned") ∧
      (d = none →
        GetBalance d =
          .error (.brokerError "bingx" "PARSE_ERROR" "Failed to parse balance response") ∧
        (.brokerError "bingx" "PARSE_ERROR" "Failed to parse balance response" : BrokerErr) ≠
          .brokerError "bingx" "NO_DATA" "No balance data returned") := by
  intro d
  cases d with
  | none =>
    refine ⟨⟨?_, ?_⟩, ?_, ?_⟩
    · intro h
      exact absurd h (by decide)
    · rintro ⟨resp, hd, -, -⟩
      exact Option.noConfusion hd
    · intro resp hd
      exact Option.noConfusion hd
    · intro _
      exact ⟨by decide, by decide⟩
  | some resp =>
    refine ⟨⟨?_, ?_⟩, ?_, ?_⟩
    · intro h
      rw [GetBalance] at h
      split at h
      · injection h with h
        rw [apiError] at h
        injection h with h1 h2 h3
        exact absurd h2 (api_code_ne_no_data _)
      · rename_i hcode
        split at h
        · rename_i hdata
          exact ⟨resp, rfl, not_not.mp hcode, hdata⟩
        · exact Except.noConfusion h
    · rintro ⟨resp', hd, hcode, hdata⟩
      injection hd with hd
      subst hd
      rw [GetBalance, if_neg (by simp [hcode]), hdata]
    · intro resp' hd hcode
      injection hd with hd
      subst hd
      refine ⟨by rw [GetBalance, if_pos hcode], ?_⟩
      intro hc
      rw [apiError] at hc
      injection hc with h1 h2 h3
      exact api_code_ne_no_data _ h2
    · intro hd
      exact Option.noConfusion hd

/-- C9, witness: a success-coded envelope with an empty data list. -/
theorem balance_no_data_error_witness :
    GetBalance (some { code := 0, data := [], msg := "" }) =
      .error (.brokerError "bingx" "NO_DATA" "No balance data returned") :=
  (balance_no_data_error (some { code := 0, data := [], msg := "" })).1.mpr
    ⟨_, rfl, rfl, rfl⟩

/-- C10: when the order filter's `Side` field is set, an order is retained
exactly when the filter value equals the order's raw exchange status (the
comparison reads `o.Status`, not the order's side, and happens before the
trigger-order PENDING remap, which `mkOrder` applies afterwards). -/
theorem order_side_filter_matches_raw_status :
    ∀ (resp : OpenOrdersResponse) (f : OrderFilter) (v : OrderStatus),
      f.side = some v → resp.code = APISuccessCode →
      (GetOrders resp (some f) =
        .ok ((resp.orders.filter (fun o => v == o.status)).map mkOrder)) ∧
      (∀ o : OpenOrderData, (!orderFilterRejects (some f) o) = (v == o.status)) ∧
      (∀ o : OpenOrderData, (mkOrder o).status = mapBingXStatus o.status o.type) := by
  intro resp f v hside hcode
  have hpred : ∀ o : OpenOrderData,
      (!orderFilterRejects (some f) o) = (v == o.status) := by
    intro o
    simp [orderFilterRejects, hside, bne]
  refine ⟨?_, hpred, fun o => rfl⟩
  rw [GetOrders, if_neg (by simp [hcode])]
  exact congrArg (fun l => Except.ok (l.map mkOrder))
    (List.filter_congr (fun o _ => hpred o))

/-- A concrete open-orders response containing one untriggered stop-market
order. -/
def triggerOrderResp : OpenOrdersResponse :=
  { code := 0
    orders := [{ orderId := 42, symbol := "BTC-USDT", side := "SELL",
                 positionSide := "LONG", type := "STOP_MARKET",
                 quantity := "0.5", status := "NEW" }]
    msg := "" }

/-- C10, witness: a `Side`-filter value `"NEW"` retains a STOP_MARKET order
whose raw status is `"NEW"` even though its normalized status is
`"PENDING"` — the comparison used the raw status. -/
theorem order_side_filter_matches_raw_status_witness :
    GetOrders triggerOrderResp
        (some { symbol := "", side := some "NEW", status := none }) =
      .ok [{ id := "42", clientOrderID := "", symbol := "BTC-USDT",
             side := "LONG", type := "STOP_MARKET", status := "PENDING",
             size := mkRat 1 2, price := 0, stopPrice := 0, filledSize := 0,
             averagePrice := 0, reduceOnly := true, timeInForce := "",
             createdAt := 0, updatedAt := 0 }] := by
  have h := (order_side_filter_matches_raw_status triggerOrderResp
    { symbol := "", side := some "NEW", status := none } "NEW" rfl rfl).1
  rw [h]
  decide

end TradingGo
